import Mathlib

/-!
Verification development for the `pyflame_ai` profiler-output parser
(`src/pyflame_ai/parser.py`).  The Python class `Parser` is shallowly
embedded: its mutable attributes become the fields of `ParserState`, each
method becomes a Lean function, the regular expressions used by the code
are modelled character by character with the leftmost/greedy semantics of
`re.search`, and Python's unbounded integers become `Int`.  File access
(`Path.read_text`) and the result of `ast.parse` are abstracted as an
environment `String → Option PyFile`; exceptions escaping `Parser.parse`
are modelled with `Except`.
-/

/-! ### Definitions: the shallow embedding -/

/-- Whitespace characters recognised by Python's `str.strip()` and by the
regex class `\s` (ASCII range). -/
def pyWS (ch : Char) : Bool :=
  ch = ' ' ∨ ch = '\t' ∨ ch = '\n' ∨ ch = '\r' ∨ ch = '\x0b' ∨ ch = '\x0c'

/-- `str.strip()` on a character list. -/
def stripChars (l : List Char) : List Char :=
  ((l.dropWhile pyWS).reverse.dropWhile pyWS).reverse

/-- `str.strip()`. -/
def pyStrip (s : String) : String := ⟨stripChars s.data⟩

/-- `s.rsplit(' ', 1)` when it yields two parts: split at the last space
character.  `none` models the one-part outcome (no space in `s`). -/
def rsplitSpace (s : String) : Option (String × String) :=
  let r := s.data.reverse
  if r.any (· = ' ') then
    some (⟨((r.dropWhile (· ≠ ' ')).tail).reverse⟩, ⟨(r.takeWhile (· ≠ ' ')).reverse⟩)
  else none

/-- Digit-run parser for `int()`: digits with single underscores allowed
between digits (CPython's grammar for decimal integer literals). -/
def pyDigitsAux : Nat → List Char → Option Nat
  | acc, [] => some acc
  | acc, '_' :: ch :: rest =>
      if ch.isDigit then pyDigitsAux (acc * 10 + (ch.toNat - 48)) rest else none
  | _, ['_'] => none
  | acc, ch :: rest =>
      if ch.isDigit then pyDigitsAux (acc * 10 + (ch.toNat - 48)) rest else none

/-- A nonempty digit run (first character must be a digit). -/
def pyDigitsFirst : List Char → Option Nat
  | [] => none
  | ch :: rest => if ch.isDigit then pyDigitsAux (ch.toNat - 48) rest else none

/-- Python's `int(s)` on ASCII strings: surrounding whitespace is ignored,
an optional single `+`/`-` sign is allowed, and the digits may contain
single underscores between digits.  In particular **negative** values are
accepted.  (Unicode digits, also accepted by CPython, are outside the
model.) -/
def pyInt? (s : String) : Option Int :=
  match stripChars s.data with
  | '+' :: rest => (pyDigitsFirst rest).map Int.ofNat
  | '-' :: rest => (pyDigitsFirst rest).map (fun n => -(n : Int))
  | rest => (pyDigitsFirst rest).map Int.ofNat

/-- Does `pre` occur at the start of `s`? (`str.startswith`). -/
def startsWithChars : List Char → List Char → Bool
  | [], _ => true
  | _ :: _, [] => false
  | p :: ps, c :: cs => p = c && startsWithChars ps cs

/-- `s.startswith(pre)`. -/
def pyStartsWith (s pre : String) : Bool := startsWithChars pre.data s.data

/-- Does `s` end with `suf`? -/
def endsWithChars (s suf : List Char) : Bool := startsWithChars suf.reverse s.reverse

/-- Substring containment, Python's `needle in haystack`. -/
def containsSub (need : List Char) : List Char → Bool
  | [] => need.isEmpty
  | c :: t => startsWithChars need (c :: t) || containsSub need t

/-- `stack_str.split(';')` (the raw split, before stripping). -/
def splitSemis : List Char → List (List Char)
  | [] => [[]]
  | ch :: rest =>
    if ch = ';' then [] :: splitSemis rest
    else
      match splitSemis rest with
      | h :: t => (ch :: h) :: t
      | [] => [[ch]]

/-- `[item.strip() for item in stack_str.split(';') if item.strip()]`. -/
def splitFrames (s : String) : List String :=
  (((splitSemis s.data).map stripChars).filter (· ≠ [])).map (fun l => (⟨l⟩ : String))

/-- Group extraction for `re.search(r'\(([^)]+\.py):', item)` at one `(`:
`P` is the maximal run of non-`)` characters after the `(`; the greedy
group is the longest prefix of `P` that ends in `".py"`, has at least one
stem character before that suffix (`[^)]+` demands a nonempty stem, so
the group is at least 4 characters long), and is followed (inside `P`)
by a `:`. -/
def groupPy (l : List Char) : Option (List Char) :=
  let P := l.takeWhile (· ≠ ')')
  (List.range P.length).reverse.findSome? (fun i =>
    if P[i]? = some ':' ∧ 3 < i ∧ endsWithChars (P.take i) ".py".data then some (P.take i)
    else none)

/-- Scan for the leftmost `(` that admits a match of
`re.search(r'\(([^)]+\.py):', item)`; returns group 1. -/
def searchModulePyAux : List Char → Option (List Char)
  | [] => none
  | c :: rest =>
    if c = '(' then
      match groupPy rest with
      | some g => some g
      | none => searchModulePyAux rest
    else searchModulePyAux rest

/-- `re.search(r'\(([^)]+\.py):', item)`, group 1. -/
def searchModulePy (s : String) : Option String :=
  (searchModulePyAux s.data).map (fun l => (⟨l⟩ : String))

/-- Tail matcher for `re.search(r'([^ ]+)\s+\(([^)]+)\)', item)`: matches
`\s+\(([^)]+)\)` at the start of `l` and returns the parenthesised group. -/
def matchTailLoc (l : List Char) : Option (List Char) :=
  if l.takeWhile pyWS = [] then none
  else
    match l.dropWhile pyWS with
    | '(' :: rest =>
      let g := rest.takeWhile (· ≠ ')')
      if g = [] then none
      else
        match rest.dropWhile (· ≠ ')') with
        | ')' :: _ => some g
        | _ => none
    | _ => none

/-- `re.search(r'([^ ]+)\s+\(([^)]+)\)', item)`: scan start positions left
to right; at each, group 1 is the longest nonempty run of non-space
characters whose suffix admits `\s+\(([^)]+)\)` (greedy with
backtracking, since a tab is matched both by `[^ ]` and by `\s`). -/
def matchNameLocAux : List Char → Option (List Char × List Char)
  | [] => none
  | c :: rest =>
    if c = ' ' then matchNameLocAux rest
    else
      let run := (c :: rest).takeWhile (· ≠ ' ')
      match (List.range run.length).reverse.findSome? (fun j =>
          match matchTailLoc ((c :: rest).drop (j + 1)) with
          | some g2 => some ((c :: rest).take (j + 1), g2)
          | none => none) with
      | some r => some r
      | none => matchNameLocAux rest

/-- Tail matcher for `re.search(r'([^ ]+)\s+\([^:]+:(\d+)\)', item)`:
matches `\s+\([^:]+:(\d+)\)` at the start of `l`, returning the digit
group. -/
def matchTailLine (l : List Char) : Option (List Char) :=
  if l.takeWhile pyWS = [] then none
  else
    match l.dropWhile pyWS with
    | '(' :: rest =>
      let a := rest.takeWhile (· ≠ ':')
      if a = [] then none
      else
        match rest.dropWhile (· ≠ ':') with
        | ':' :: rest2 =>
          let d := rest2.takeWhile Char.isDigit
          if d = [] then none
          else
            match rest2.dropWhile Char.isDigit with
            | ')' :: _ => some d
            | _ => none
        | _ => none
    | _ => none

/-- `re.search(r'([^ ]+)\s+\([^:]+:(\d+)\)', item)`: groups 1 and 2. -/
def matchNameLineAux : List Char → Option (List Char × List Char)
  | [] => none
  | c :: rest =>
    if c = ' ' then matchNameLineAux rest
    else
      let run := (c :: rest).takeWhile (· ≠ ' ')
      match (List.range run.length).reverse.findSome? (fun j =>
          match matchTailLine ((c :: rest).drop (j + 1)) with
          | some d => some ((c :: rest).take (j + 1), d)
          | none => none) with
      | some r => some r
      | none => matchNameLineAux rest

/-- Group extraction for `re.search(r'<frozen ([^>]+)>', module_str)`:
leftmost occurrence of `<frozen ` followed by a nonempty run of non-`>`
characters and a `>`. -/
def searchFrozenAux : List Char → Option (List Char)
  | [] => none
  | c :: rest =>
    if startsWithChars "<frozen ".data (c :: rest) then
      let after := (c :: rest).drop 8
      let g := after.takeWhile (· ≠ '>')
      if g = [] then searchFrozenAux rest
      else
        match after.dropWhile (· ≠ '>') with
        | '>' :: _ => some g
        | _ => searchFrozenAux rest
    else searchFrozenAux rest

/-- The mutable attributes of `Parser` (`__init__`).  The tally
dictionaries are `defaultdict(int)`: association lists in key-insertion
order, which is the order a Python `dict` iterates in.  Module keys are
`Option String` because `self.main_module_name` (which can be `None`) is
used directly as a dictionary key in `_process_functions`. -/
structure ParserState where
  total_samples : Int
  main_module_name : Option String
  overhead_samples : Int
  optimization_priority : List (String × Int)
  function_totals : List (String × Int)
  module_samples : List (Option String × Int)
deriving DecidableEq

/-- The state built by `Parser.__init__`. -/
def initState : ParserState :=
  { total_samples := 0
    main_module_name := none
    overhead_samples := 0
    optimization_priority := []
    function_totals := []
    module_samples := [] }

/-- `d[k] += c` on a `defaultdict(int)`: increment in place if the key is
present, otherwise append the new key with value `0 + c`. -/
def bump {α : Type} [DecidableEq α] (l : List (α × Int)) (k : α) (c : Int) :
    List (α × Int) :=
  match l with
  | [] => [(k, c)]
  | (k', v) :: t => if k' = k then (k', v + c) :: t else (k', v) :: bump t k c

/-- The three `+= samples_count` statements that `_analyze_stack` /
`_process_functions` perform together on the tallies. -/
def addTallies (st : ParserState) (key fn : String) (moduleKey : Option String)
    (c : Int) : ParserState :=
  { st with
    optimization_priority := bump st.optimization_priority key c
    function_totals := bump st.function_totals fn c
    module_samples := bump st.module_samples moduleKey c }

/-- `Parser._clean_module_name`. -/
def cleanModuleName (s : String) : String :=
  if pyStartsWith s "<frozen " then
    match searchFrozenAux s.data with
    | some g => (⟨g⟩ : String)
    | none => s
  else s

/-- `Parser._get_active_function`: last (active) frame, split its location
on the first `:`. -/
def getActiveFunction (items : List String) : Option (String × String × String) :=
  match items.getLast? with
  | none => none
  | some last =>
    match matchNameLocAux last.data with
    | none => none
    | some (f, loc) =>
      if loc.any (· = ':') then
        let modulePart := loc.takeWhile (· ≠ ':')
        let linePart := (loc.dropWhile (· ≠ ':')).tail
        some ((⟨f⟩ : String), cleanModuleName (⟨modulePart⟩ : String), (⟨linePart⟩ : String))
      else none

/-- The five interpreter-import marker strings of `_classify_stack`. -/
def importPatterns : List String :=
  ["_find_and_load", "_find_and_load_unlocked", "_load_unlocked",
   "exec_module", "_call_with_frames_removed"]

/-- Does any frame contain (substring test, `pattern in item`) any import
marker? -/
def hasImportMarker (items : List String) : Bool :=
  items.any (fun it => importPatterns.any (fun p => containsSub p.data it.data))

/-- `Parser._classify_stack`. -/
def classifyStack (st : ParserState) (items : List String) : String :=
  match items with
  | [] => "unknown"
  | first :: _ =>
    if hasImportMarker items then "import"
    else if pyStartsWith first "<module>" then
      match searchModulePy first with
      | some name =>
        if (some name : Option String) = st.main_module_name then "main_module_code"
        else "other_module"
      | none => "other_module"
    else "other_module"

/-- `Parser._process_functions`. -/
def processFunctions (st : ParserState) (items : List String) (c : Int)
    (moduleName : Option String) : ParserState :=
  match items.getLast? with
  | none => st
  | some last =>
    match matchNameLineAux last.data with
    | none => st
    | some (f, ln) =>
      addTallies st ((⟨f⟩ : String) ++ ":" ++ (⟨ln⟩ : String)) (⟨f⟩ : String) moduleName c

/-- The two lines `if items and items[0].startswith('<module>'): items =
items[1:]` of the `main_module_code` branch of `_analyze_stack`. -/
def stripLeadModule (items : List String) : List String :=
  match items with
  | it :: rest => if pyStartsWith it "<module>" then rest else items
  | [] => items

/-- `Parser._analyze_stack`. -/
def analyzeStack (st : ParserState) (stackStr : String) (c : Int) : ParserState :=
  let items := splitFrames stackStr
  let t := classifyStack st items
  if t = "import" then
    let st' := { st with overhead_samples := st.overhead_samples + c }
    match getActiveFunction items with
    | some (f, m, ln) => addTallies st' (f ++ ":" ++ ln) f (some m) c
    | none => st'
  else if t = "main_module_code" then
    let items' := stripLeadModule items
    if items' = [] then { st with overhead_samples := st.overhead_samples + c }
    else processFunctions st items' c st.main_module_name
  else if t = "other_module" then
    match getActiveFunction items with
    | some (f, m, ln) => addTallies st (f ++ ":" ++ ln) f (some m) c
    | none => st
  else st

/-- The loop body of `Parser._extract_main_module_name`: the first frame
starting with `<module>` whose location matches `\(([^)]+\.py):` with a
group not starting with `<` provides the module name. -/
def moduleNameCandidate (item : String) : Option String :=
  if pyStartsWith item "<module>" then
    match searchModulePy item with
    | some name => if pyStartsWith name "<" then none else some name
    | none => none
  else none

/-- `Parser._extract_main_module_name`. -/
def extractMainModuleName (st : ParserState) (stackStr : String) : ParserState :=
  match (splitFrames stackStr).findSome? moduleNameCandidate with
  | some name => { st with main_module_name := some name }
  | none => st

/-- The per-line decoding steps of `Parser.parse` (strip, skip empty,
`rsplit(' ', 1)`, `int(...)`); `none` models `continue`. -/
def decodeLine (line : String) : Option (String × Int) :=
  let l := pyStrip line
  if l = "" then none
  else
    match rsplitSpace l with
    | none => none
    | some (stackStr, samplesStr) => (pyInt? samplesStr).map (fun c => (stackStr, c))

/-- One iteration of the `for line in f` loop of `Parser.parse`. -/
def processLine (st : ParserState) (line : String) : ParserState :=
  match decodeLine line with
  | none => st
  | some (stackStr, c) =>
    let st1 := { st with total_samples := st.total_samples + c }
    let st2 := if st1.main_module_name.isNone then extractMainModuleName st1 stackStr else st1
    analyzeStack st2 stackStr c

/-- The whole reading loop of `Parser.parse` over the file's lines. -/
def parseLines (lines : List String) : ParserState :=
  lines.foldl processLine initState

/-- Stable insertion of `x` into a descending-by-count list: `x` goes
after every entry with count `≥ x.2`. -/
def insertDesc {α : Type} (x : α × Int) : List (α × Int) → List (α × Int)
  | [] => [x]
  | y :: ys => if x.2 ≤ y.2 then y :: insertDesc x ys else x :: y :: ys

/-- `sorted(d.items(), key=lambda x: x[1], reverse=True)`: Python's sort
is guaranteed stable (equal elements keep their original, i.e.
key-insertion, order); a stable descending sort is unique, and
`insertDesc`-based insertion sort computes it. -/
def sortDesc {α : Type} (l : List (α × Int)) : List (α × Int) :=
  l.foldl (fun acc x => insertDesc x acc) []

/-- Round-half-even of the exact rational `(s * 1000) / t` (`t ≠ 0`):
the integer of tenths that `f"{s / t * 100:.1f}"` renders, with the
binary `float` modelled as the exact rational value. -/
def pctTenths (s t : Int) : Int :=
  let a := if t < 0 then -(s * 1000) else s * 1000
  let b := if t < 0 then -t else t
  let f := Int.fdiv a b
  let r := a - f * b
  if 2 * r < b then f else if b < 2 * r then f + 1 else if f % 2 = 0 then f else f + 1

/-- Decimal rendering of a number of tenths: `renderTenths 333 = "33.3"`. -/
def renderTenths (n : Int) : String :=
  (if n < 0 then "-" else "") ++ toString (n.natAbs / 10) ++ "." ++ toString (n.natAbs % 10)

/-- `format_percentage` (local function of `_format_result`). -/
def formatPercentage (total samples : Int) : String :=
  if total = 0 then "0.0%" else renderTenths (pctTenths samples total) ++ "%"

/-- One element of `result['optimization_priority']`. -/
structure PriorityEntry where
  location : String
  samples : Int
  percentage : String
deriving DecidableEq

/-- One element of `result['function_totals']`. -/
structure FunctionEntry where
  function : String
  samples : Int
  percentage : String
deriving DecidableEq

/-- One element of `result['module_distribution']`. -/
structure ModuleEntry where
  module : Option String
  samples : Int
  percentage : String
deriving DecidableEq

/-- `result['summary']`. -/
structure Summary where
  total_samples : Int
  main_module : Option String
  overhead_samples : Int
  overhead_percentage : String
  total_modules : Nat
deriving DecidableEq

/-- `result['statistics']`. -/
structure Statistics where
  code_samples : Int
  code_percentage : String
  import_overhead : Int
  import_percentage : String
deriving DecidableEq

/-- `self.result`; `source_code` is `none` until `_extract_target_func`
adds the key. -/
structure AnalysisResult where
  summary : Summary
  optimization_priority : List PriorityEntry
  function_totals : List FunctionEntry
  module_distribution : List ModuleEntry
  statistics : Statistics
  source_code : Option String
deriving DecidableEq

/-- `Parser._format_result`. -/
def formatResult (st : ParserState) : AnalysisResult :=
  let sortedPriority := sortDesc st.optimization_priority
  let sortedTotals := sortDesc st.function_totals
  let sortedModules := sortDesc st.module_samples
  { summary :=
      { total_samples := st.total_samples
        main_module := st.main_module_name
        overhead_samples := st.overhead_samples
        overhead_percentage := formatPercentage st.total_samples st.overhead_samples
        total_modules := st.module_samples.length }
    optimization_priority :=
      (sortedPriority.take 20).map (fun p =>
        { location := p.1, samples := p.2
          percentage := formatPercentage st.total_samples p.2 })
    function_totals :=
      sortedTotals.map (fun p =>
        { function := p.1, samples := p.2
          percentage := formatPercentage st.total_samples p.2 })
    module_distribution :=
      sortedModules.map (fun p =>
        { module := p.1, samples := p.2
          percentage := formatPercentage st.total_samples p.2 })
    statistics :=
      { code_samples := st.total_samples - st.overhead_samples
        code_percentage := formatPercentage st.total_samples (st.total_samples - st.overhead_samples)
        import_overhead := st.overhead_samples
        import_percentage := formatPercentage st.total_samples st.overhead_samples }
    source_code := none }

/-- A node of the Python `ast` tree: `funcDef` covers both
`ast.FunctionDef` and `ast.AsyncFunctionDef` (the `isinstance` tuple in
`_extract_target_func`); every other node kind only matters through its
children, abstracted as `other`.  `decoLines` lists the `lineno` of each
decorator expression; `lineno`/`endLineno` are the 1-based first and last
source lines of the definition itself. -/
inductive PyNode where
  | funcDef (isAsync : Bool) (name : String) (decoLines : List Nat)
      (lineno endLineno : Nat) (children : List PyNode)
  | other (children : List PyNode)

/-- The child list used by `ast.iter_child_nodes`. -/
def PyNode.children : PyNode → List PyNode
  | funcDef _ _ _ _ _ cs => cs
  | other cs => cs

/-- `ast.walk`: breadth-first traversal with a FIFO queue (pop from the
front, append children at the back). -/
def walkBFS : List PyNode → List PyNode
  | [] => []
  | n :: queue => n :: walkBFS (queue ++ n.children)
termination_by l => sizeOf l
decreasing_by
  have h1 : ∀ (l₁ l₂ : List PyNode), sizeOf (l₁ ++ l₂) + 1 = sizeOf l₁ + sizeOf l₂ := by
    intro l₁ l₂
    induction l₁ with
    | nil => simp; omega
    | cons a t ih => simp [List.cons_append]; omega
  have h2 : sizeOf n.children < sizeOf n := by cases n <;> simp [PyNode.children]
  have h3 := h1 queue n.children
  simp only [List.cons.sizeOf_spec]
  omega

/-- `min(d.lineno for d in node.decorator_list)` when decorators exist,
else the definition's own `lineno`. -/
def startLineno (decoLines : List Nat) (lineno : Nat) : Nat :=
  match decoLines with
  | [] => lineno
  | d :: ds => ds.foldl min d

/-- `"\n".join(lines[start:end])` for the span of one matching node:
`start = startLineno - 1` (0-based), `end = end_lineno` (inclusive last
line, exclusive slice bound). -/
def spanText (lines : List String) (decoLines : List Nat) (lineno endLineno : Nat) : String :=
  String.intercalate "\n" ((lines.drop (startLineno decoLines lineno - 1)).take
    (endLineno - (startLineno decoLines lineno - 1)))

/-- The `for node in ast.walk(tree)` loop of `_extract_target_func`:
`code` is overwritten at every `FunctionDef`/`AsyncFunctionDef` whose name
matches, so the match visited last in `ast.walk` order wins. -/
def lastMatchCode (roots : List PyNode) (funcName : String) (lines : List String) :
    Option String :=
  (walkBFS roots).foldl (fun code n =>
    match n with
    | .funcDef _ name decoLines lineno endLineno _ =>
      if name = funcName then some (spanText lines decoLines lineno endLineno) else code
    | .other _ => code) none

/-- What the extractor needs of a source file: `lines` is
`source.splitlines()`, `tree` the `ast.parse(source)` module node. -/
structure PyFile where
  lines : List String
  tree : PyNode

/-- Exceptions that can escape `Parser.parse` in the modelled fragment:
`typeError` is `Path(None)`, `fileNotFound` is a failing
`Path.read_text`. -/
inductive PyErr where
  | typeError
  | fileNotFound
deriving DecidableEq

/-- `Parser._extract_target_func`.  The `try` block catches only
`IndexError` (empty ranked lists → `return False`, modelled `ok none`);
`Path(None)` and a failing `read_text` raise through (`error`).  On a
found definition the span is stored in `result['source_code']`
(`ok (some _)`). -/
def extractTargetFunc (fs : String → Option PyFile) (res : AnalysisResult) :
    Except PyErr (Option AnalysisResult) :=
  match res.module_distribution with
  | [] => .ok none
  | m :: _ =>
    match m.module with
    | none => .error .typeError
    | some path =>
      match res.function_totals with
      | [] => .ok none
      | fe :: _ =>
        match fs path with
        | none => .error .fileNotFound
        | some pf =>
          match lastMatchCode [pf.tree] fe.function pf.lines with
          | none => .ok none
          | some code => .ok (some { res with source_code := some code })

instance {ε α : Type} [DecidableEq ε] [DecidableEq α] : DecidableEq (Except ε α) := fun a b =>
  match a, b with
  | .error e, .error e' =>
    if h : e = e' then .isTrue (by rw [h]) else .isFalse (by intro hc; cases hc; exact h rfl)
  | .ok v, .ok v' =>
    if h : v = v' then .isTrue (by rw [h]) else .isFalse (by intro hc; cases hc; exact h rfl)
  | .error _, .ok _ => .isFalse (by intro hc; cases hc)
  | .ok _, .error _ => .isFalse (by intro hc; cases hc)

/-- `Parser.parse`: stream the lines, format the result, then try the
source-span extraction.  When extraction signals `False` the code prints
a warning (`_echo_error`) and executes a bare `return`, so the caller
receives `None` (modelled `ok none`), not the result object. -/
def parse (fs : String → Option PyFile) (lines : List String) :
    Except PyErr (Option AnalysisResult) :=
  let st := parseLines lines
  let res := formatResult st
  match extractTargetFunc fs res with
  | .error e => .error e
  | .ok none => .ok none
  | .ok (some r) => .ok (some r)

/-- Sum of the counter values, `sum(d.values())`. -/
def sumCounts {α : Type} (l : List (α × Int)) : Int := (l.map Prod.snd).sum

/-- All three tally dictionaries have pairwise-distinct keys. -/
def talliesNodup (st : ParserState) : Prop :=
  (st.optimization_priority.map Prod.fst).Nodup ∧
  (st.function_totals.map Prod.fst).Nodup ∧
  (st.module_samples.map Prod.fst).Nodup

/-- A two-entry state used to exercise the sorting theorem. -/
def stTwoEntries : ParserState :=
  { initState with optimization_priority := [("x:1", 0), ("y:2", 0)] }

/-- `overheadSamples + sum(module_samples.values()) - totalSamples`, the
quantity the claimed invariant says is always zero. -/
def balance (st : ParserState) : Int :=
  st.overhead_samples + sumCounts st.module_samples - st.total_samples

/-- Ghost accounting: the net change `_analyze_stack` makes to
`overhead_samples + Σ module_samples` for one absorbed stack — `2c` for
an import-classified stack whose active frame is locatable (the sample is
counted in BOTH overhead and the tallies), `c` for a singly-attributed
stack, `0` for an unattributed one. -/
def stackBalanceDelta (st2 : ParserState) (s : String) (c : Int) : Int :=
  let items := splitFrames s
  let t := classifyStack st2 items
  if t = "import" then (if (getActiveFunction items).isSome then 2 * c else c)
  else if t = "main_module_code" then
    (if stripLeadModule items = [] then c
     else
       match (stripLeadModule items).getLast? with
       | none => 0
       | some last =>
         match matchNameLineAux last.data with
         | none => 0
         | some _ => c)
  else if t = "other_module" then (if (getActiveFunction items).isSome then c else 0)
  else 0

/-- Ghost per-line flow: the net change of `balance` caused by absorbing
one raw line (`0` for skipped lines; `stackBalanceDelta − c` for a line
decoded with count `c`, since `total_samples` always gains `c`). -/
def lineFlow (st : ParserState) (line : String) : Int :=
  match decodeLine line with
  | none => 0
  | some (stackStr, c) =>
    let st1 := { st with total_samples := st.total_samples + c }
    let st2 := if st1.main_module_name.isNone then extractMainModuleName st1 stackStr else st1
    stackBalanceDelta st2 stackStr c - c

/-- The total ghost flow of a whole parse pass. -/
def parseFlow (lines : List String) : Int :=
  (lines.foldl (fun p line => (processLine p.1 line, p.2 + lineFlow p.1 line))
    (initState, 0)).2

/-- Does this node match the `isinstance`+name test of
`_extract_target_func`? -/
def isTargetDef (funcName : String) : PyNode → Bool
  | .funcDef _ name _ _ _ _ => decide (name = funcName)
  | .other _ => false

/-- The span text a matching node contributes (`""` for non-definition
nodes, which never match). -/
def spanOf (lines : List String) : PyNode → String
  | .funcDef _ _ decoLines lineno endLineno _ => spanText lines decoLines lineno endLineno
  | .other _ => ""

/-- The spec's "full top-to-bottom structural walk": document-order
(pre-order, depth-first) traversal of the tree.  Stated from the spec's
words for comparison with the code's breadth-first `ast.walk`. -/
def specWalkTopToBottom : List PyNode → List PyNode
  | [] => []
  | n :: rest => n :: (specWalkTopToBottom n.children ++ specWalkTopToBottom rest)
termination_by l => sizeOf l
decreasing_by
  · have : sizeOf n.children < sizeOf n := by cases n <;> simp [PyNode.children]
    simp only [List.cons.sizeOf_spec]
    omega
  · simp only [List.cons.sizeOf_spec]
    omega

/-- What the claim says the extractor returns: the span of the match
encountered last in document order. -/
def specLastMatchCode (roots : List PyNode) (funcName : String) (lines : List String) :
    Option String :=
  ((specWalkTopToBottom roots).filter (isTargetDef funcName)).getLast?.map (spanOf lines)

/-- A module with `target` defined once nested inside `outer` (lines 2-3)
and once at top level (lines 4-5). -/
def cTree : PyNode :=
  .other [.funcDef false "outer" [] 1 3 [.funcDef false "target" [] 2 3 []],
          .funcDef false "target" [] 4 5 []]

/-- The matching source lines of `cTree`. -/
def cLines : List String :=
  ["def outer():", "    def target():", "        return 1", "def target():", "    return 2"]

/-! ### Theorems -/

-- sanity examples (spec §8 scenarios)
example :
    (parseLines ["<module> (test.py:8);slow_function (test.py:4) 200"]).total_samples = 200 := by
  decide

example :
    (parseLines ["<module> (test.py:8);slow_function (test.py:4) 200"]).main_module_name =
      some "test.py" := by
  decide

example :
    (parseLines ["<module> (test.py:8);slow_function (test.py:4) 200"]).function_totals =
      [("slow_function", 200)] := by
  decide

-- sanity: 1/3 renders as "33.3%", 100% as "100.0%", and the zero guard
example : formatPercentage 3 1 = "33.3%" := by decide
example : formatPercentage 5 5 = "100.0%" := by decide
example : formatPercentage 0 7 = "0.0%" := by decide
example : formatPercentage 8 1 = "12.5%" := by decide
example :
    (formatResult (parseLines ["<module> (_find_and_load:1) 100"])).statistics.import_overhead
      = 100 := by decide
example :
    (formatResult (parseLines ["<module> (_find_and_load:1) 100"])).statistics.import_percentage
      = "100.0%" := by decide

theorem mem_insertDesc {α : Type} {z x : α × Int} {l : List (α × Int)} :
    z ∈ insertDesc x l ↔ z = x ∨ z ∈ l := by
  induction l with
  | nil => simp [insertDesc]
  | cons y ys ih =>
    by_cases h : x.2 ≤ y.2 <;> simp [insertDesc, h, ih] <;> tauto

theorem insertDesc_pairwise {α : Type} {x : α × Int} {l : List (α × Int)}
    (h : l.Pairwise (fun a b => b.2 ≤ a.2)) :
    (insertDesc x l).Pairwise (fun a b => b.2 ≤ a.2) := by
  induction l with
  | nil => simp [insertDesc]
  | cons y ys ih =>
    rcases List.pairwise_cons.mp h with ⟨hy, hys⟩
    by_cases hx : x.2 ≤ y.2
    · simp only [insertDesc, if_pos hx]
      refine List.pairwise_cons.mpr ⟨?_, ih hys⟩
      intro z hz
      rcases mem_insertDesc.mp hz with rfl | hz
      · exact hx
      · exact hy z hz
    · simp only [insertDesc, if_neg hx]
      refine List.pairwise_cons.mpr ⟨?_, h⟩
      intro z hz
      rcases List.mem_cons.mp hz with rfl | hz
      · omega
      · have := hy z hz; omega

theorem insertDesc_length {α : Type} (x : α × Int) (l : List (α × Int)) :
    (insertDesc x l).length = l.length + 1 := by
  induction l with
  | nil => simp [insertDesc]
  | cons y ys ih => by_cases h : x.2 ≤ y.2 <;> simp [insertDesc, h, ih]

theorem dropWhile_lt_of_sorted {α : Type} {x : α × Int} {l : List (α × Int)}
    (h : l.Pairwise (fun a b => b.2 ≤ a.2)) :
    ∀ z ∈ l.dropWhile (fun y => decide (x.2 ≤ y.2)), z.2 < x.2 := by
  induction l with
  | nil => simp
  | cons y ys ih =>
    rcases List.pairwise_cons.mp h with ⟨hy, hys⟩
    by_cases hx : x.2 ≤ y.2
    · simpa [List.dropWhile_cons, hx] using ih hys
    · intro z hz
      simp only [List.dropWhile_cons, decide_eq_true_eq, if_neg hx] at hz
      rcases List.mem_cons.mp hz with rfl | hz
      · omega
      · have := hy z hz; omega

theorem insertDesc_eq_take_drop {α : Type} (x : α × Int) (l : List (α × Int)) :
    insertDesc x l =
      l.takeWhile (fun y => decide (x.2 ≤ y.2)) ++ x :: l.dropWhile (fun y => decide (x.2 ≤ y.2)) := by
  induction l with
  | nil => simp [insertDesc]
  | cons y ys ih =>
    by_cases h : x.2 ≤ y.2 <;>
      simp [insertDesc, List.takeWhile_cons, List.dropWhile_cons, h, ih]

theorem insertDesc_filter {α : Type} {x : α × Int} {l : List (α × Int)} (c : Int)
    (h : l.Pairwise (fun a b => b.2 ≤ a.2)) :
    (insertDesc x l).filter (fun y => decide (y.2 = c)) =
      if x.2 = c then l.filter (fun y => decide (y.2 = c)) ++ [x]
      else l.filter (fun y => decide (y.2 = c)) := by
  have hsplit := List.takeWhile_append_dropWhile (l := l) (p := fun y => decide (x.2 ≤ y.2))
  by_cases hx : x.2 = c
  · have hdrop : (l.dropWhile (fun y => decide (x.2 ≤ y.2))).filter
        (fun y => decide (y.2 = c)) = [] := by
      rw [List.filter_eq_nil]
      intro z hz
      have := dropWhile_lt_of_sorted h z hz
      simp only [decide_eq_true_eq]
      omega
    calc (insertDesc x l).filter (fun y => decide (y.2 = c))
        = (l.takeWhile (fun y => decide (x.2 ≤ y.2))).filter (fun y => decide (y.2 = c)) ++
            x :: (l.dropWhile (fun y => decide (x.2 ≤ y.2))).filter (fun y => decide (y.2 = c)) := by
          rw [insertDesc_eq_take_drop, List.filter_append, List.filter_cons]
          simp [hx]
      _ = l.filter (fun y => decide (y.2 = c)) ++ [x] := by
          rw [hdrop]
          conv_rhs => rw [← hsplit]
          rw [List.filter_append, hdrop]
          simp [hx]
      _ = if x.2 = c then l.filter (fun y => decide (y.2 = c)) ++ [x]
            else l.filter (fun y => decide (y.2 = c)) := by simp [hx]
  · rw [insertDesc_eq_take_drop, List.filter_append, List.filter_cons]
    simp only [decide_eq_true_eq, hx, if_neg, if_false]
    conv_rhs => rw [← hsplit]
    rw [List.filter_append]

theorem sortDescAux_pairwise {α : Type} :
    ∀ (l acc : List (α × Int)), acc.Pairwise (fun a b => b.2 ≤ a.2) →
      (l.foldl (fun a x => insertDesc x a) acc).Pairwise (fun a b => b.2 ≤ a.2)
  | [], _, h => h
  | x :: t, acc, h => sortDescAux_pairwise t (insertDesc x acc) (insertDesc_pairwise h)

/-- `sortDesc` really sorts: descending by sample count. -/
theorem sortDesc_pairwise {α : Type} (l : List (α × Int)) :
    (sortDesc l).Pairwise (fun a b => b.2 ≤ a.2) :=
  sortDescAux_pairwise l [] (by simp)

theorem sortDescAux_filter {α : Type} (c : Int) :
    ∀ (l acc : List (α × Int)), acc.Pairwise (fun a b => b.2 ≤ a.2) →
      (l.foldl (fun a x => insertDesc x a) acc).filter (fun y => decide (y.2 = c)) =
        acc.filter (fun y => decide (y.2 = c)) ++ l.filter (fun y => decide (y.2 = c))
  | [], acc, _ => by simp
  | x :: t, acc, h => by
    rw [List.foldl_cons, sortDescAux_filter c t (insertDesc x acc) (insertDesc_pairwise h),
      insertDesc_filter c h, List.filter_cons]
    by_cases hx : x.2 = c <;> simp [hx]

/-- `sortDesc` is stable: restricted to the entries carrying any fixed
count, it is the identity — ties keep their original (key-insertion)
order. -/
theorem sortDesc_filter {α : Type} (l : List (α × Int)) (c : Int) :
    (sortDesc l).filter (fun y => decide (y.2 = c)) = l.filter (fun y => decide (y.2 = c)) := by
  have := sortDescAux_filter c l [] (by simp)
  simpa [sortDesc] using this

theorem sortDescAux_length {α : Type} :
    ∀ (l acc : List (α × Int)),
      (l.foldl (fun a x => insertDesc x a) acc).length = acc.length + l.length
  | [], _ => by simp
  | x :: t, acc => by
    rw [List.foldl_cons, sortDescAux_length t (insertDesc x acc), insertDesc_length]
    simp [Nat.add_assoc, Nat.add_comm 1]

theorem sortDesc_length {α : Type} (l : List (α × Int)) :
    (sortDesc l).length = l.length := by
  have := sortDescAux_length l []
  simpa [sortDesc] using this

/-- A pair sublist of two equal-count entries of the sorted list is a
sublist of the original list (the formal content of "stable ties"). -/
theorem sortDesc_pair_stable {α : Type} {p q : α × Int} {l : List (α × Int)}
    (h : List.Sublist [p, q] (sortDesc l)) (heq : p.2 = q.2) :
    List.Sublist [p, q] l := by
  have hfilter : ([p, q].filter (fun y => decide (y.2 = p.2))) = [p, q] := by
    simp [List.filter_cons, heq.symm]
  have h2 : List.Sublist ([p, q].filter (fun y => decide (y.2 = p.2)))
      ((sortDesc l).filter (fun y => decide (y.2 = p.2))) := h.filter _
  rw [hfilter, sortDesc_filter] at h2
  exact h2.trans (List.filter_sublist l)

/-- Recover a sublist of the source list from a sublist of its image
under `map`. -/
theorem exists_of_sublist_map {α β : Type} {f : α → β} :
    ∀ {l' : List β} {l : List α}, List.Sublist l' (l.map f) →
      ∃ l₀, List.Sublist l₀ l ∧ l' = l₀.map f := by
  intro l' l
  induction l generalizing l' with
  | nil =>
    intro h
    rw [List.map_nil, List.sublist_nil] at h
    exact ⟨[], by simp [h]⟩
  | cons a t ih =>
    intro h
    rw [List.map_cons] at h
    cases h with
    | cons _ h' =>
      obtain ⟨l₀, hs, rfl⟩ := ih h'
      exact ⟨l₀, hs.cons a, rfl⟩
    | cons₂ _ h' =>
      obtain ⟨l₀, hs, rfl⟩ := ih h'
      exact ⟨a :: l₀, hs.cons₂ a, rfl⟩

theorem sumCounts_bump {α : Type} [DecidableEq α] (l : List (α × Int)) (k : α) (c : Int) :
    sumCounts (bump l k c) = sumCounts l + c := by
  induction l with
  | nil => simp [bump, sumCounts]
  | cons y t ih =>
    obtain ⟨k', v⟩ := y
    by_cases h : k' = k <;> simp [bump, h, sumCounts] at ih ⊢ <;> omega

theorem bump_keys {α : Type} [DecidableEq α] (l : List (α × Int)) (k : α) (c : Int) :
    (bump l k c).map Prod.fst =
      if k ∈ l.map Prod.fst then l.map Prod.fst else l.map Prod.fst ++ [k] := by
  induction l with
  | nil => simp [bump]
  | cons y t ih =>
    obtain ⟨k', v⟩ := y
    by_cases h : k' = k
    · simp [bump, h]
    · have hne : ¬ k = k' := fun hc => h hc.symm
      by_cases h2 : k ∈ t.map Prod.fst <;> simp [bump, h, h2, ih, hne]

theorem bump_keys_nodup {α : Type} [DecidableEq α] {l : List (α × Int)} (k : α) (c : Int)
    (h : (l.map Prod.fst).Nodup) : ((bump l k c).map Prod.fst).Nodup := by
  rw [bump_keys]
  by_cases hm : k ∈ l.map Prod.fst
  · simpa [hm] using h
  · simp only [hm, if_false]
    rw [List.nodup_append]
    exact ⟨h, List.nodup_singleton k, fun a ha hb => by
      rw [List.mem_singleton] at hb
      exact hm (hb ▸ ha)⟩

/-- Each call to `_analyze_stack` leaves each tally unchanged or performs
exactly one `defaultdict` update on it (with the line's sample count). -/
theorem analyzeStack_tallies (st : ParserState) (s : String) (c : Int) :
    ((analyzeStack st s c).optimization_priority = st.optimization_priority ∨
      ∃ k, (analyzeStack st s c).optimization_priority = bump st.optimization_priority k c) ∧
    ((analyzeStack st s c).function_totals = st.function_totals ∨
      ∃ k, (analyzeStack st s c).function_totals = bump st.function_totals k c) ∧
    ((analyzeStack st s c).module_samples = st.module_samples ∨
      ∃ k, (analyzeStack st s c).module_samples = bump st.module_samples k c) := by
  simp only [analyzeStack]
  split_ifs with h1 h2 h3 h4
  · cases hga : getActiveFunction (splitFrames s) with
    | none => exact ⟨Or.inl rfl, Or.inl rfl, Or.inl rfl⟩
    | some v =>
      obtain ⟨f, m, ln⟩ := v
      exact ⟨Or.inr ⟨_, rfl⟩, Or.inr ⟨_, rfl⟩, Or.inr ⟨_, rfl⟩⟩
  · exact ⟨Or.inl rfl, Or.inl rfl, Or.inl rfl⟩
  · unfold processFunctions
    cases hgl : (stripLeadModule (splitFrames s)).getLast? with
    | none => exact ⟨Or.inl rfl, Or.inl rfl, Or.inl rfl⟩
    | some last =>
      dsimp only
      cases hml : matchNameLineAux last.data with
      | none => exact ⟨Or.inl rfl, Or.inl rfl, Or.inl rfl⟩
      | some v =>
        obtain ⟨f, ln⟩ := v
        exact ⟨Or.inr ⟨_, rfl⟩, Or.inr ⟨_, rfl⟩, Or.inr ⟨_, rfl⟩⟩
  · cases hga : getActiveFunction (splitFrames s) with
    | none => exact ⟨Or.inl rfl, Or.inl rfl, Or.inl rfl⟩
    | some v =>
      obtain ⟨f, m, ln⟩ := v
      exact ⟨Or.inr ⟨_, rfl⟩, Or.inr ⟨_, rfl⟩, Or.inr ⟨_, rfl⟩⟩
  · exact ⟨Or.inl rfl, Or.inl rfl, Or.inl rfl⟩

/-- `_extract_main_module_name` only ever writes `main_module_name`. -/
theorem extractMainModuleName_counters (st : ParserState) (s : String) :
    (extractMainModuleName st s).total_samples = st.total_samples ∧
    (extractMainModuleName st s).overhead_samples = st.overhead_samples ∧
    (extractMainModuleName st s).optimization_priority = st.optimization_priority ∧
    (extractMainModuleName st s).function_totals = st.function_totals ∧
    (extractMainModuleName st s).module_samples = st.module_samples := by
  unfold extractMainModuleName
  cases h : (splitFrames s).findSome? moduleNameCandidate <;> simp [h]

theorem processLine_talliesNodup (st : ParserState) (line : String)
    (h : talliesNodup st) : talliesNodup (processLine st line) := by
  unfold processLine
  cases hdec : decodeLine line with
  | none => exact h
  | some v =>
    obtain ⟨s, c⟩ := v
    set st1 : ParserState := { st with total_samples := st.total_samples + c } with hst1
    set st2 := if st1.main_module_name.isNone then extractMainModuleName st1 s else st1 with hst2
    have hsame : st2.optimization_priority = st.optimization_priority ∧
        st2.function_totals = st.function_totals ∧
        st2.module_samples = st.module_samples := by
      rw [hst2]
      split_ifs
      · have := extractMainModuleName_counters st1 s
        exact ⟨this.2.2.1, this.2.2.2.1, this.2.2.2.2⟩
      · exact ⟨rfl, rfl, rfl⟩
    obtain ⟨e1, e2, e3⟩ := hsame
    have hsh := analyzeStack_tallies st2 s c
    obtain ⟨h1, h2, h3⟩ := h
    refine ⟨?_, ?_, ?_⟩
    · rcases hsh.1 with he | ⟨k, he⟩
      · rw [he, e1]; exact h1
      · rw [he, e1]; exact bump_keys_nodup k c h1
    · rcases hsh.2.1 with he | ⟨k, he⟩
      · rw [he, e2]; exact h2
      · rw [he, e2]; exact bump_keys_nodup k c h2
    · rcases hsh.2.2 with he | ⟨k, he⟩
      · rw [he, e3]; exact h3
      · rw [he, e3]; exact bump_keys_nodup k c h3

theorem foldl_talliesNodup :
    ∀ (lines : List String) (st : ParserState), talliesNodup st →
      talliesNodup (lines.foldl processLine st)
  | [], _, h => h
  | l :: ls, st, h => foldl_talliesNodup ls _ (processLine_talliesNodup st l h)

theorem parseLines_talliesNodup (lines : List String) : talliesNodup (parseLines lines) :=
  foldl_talliesNodup lines initState (by simp [talliesNodup, initState])

theorem sublist_sortDesc_pairs {α : Type} {p q : α × Int} {l : List (α × Int)}
    (h : List.Sublist [p, q] (sortDesc l)) :
    q.2 ≤ p.2 ∧ (p.2 = q.2 → List.Sublist [p, q] l) := by
  refine ⟨?_, fun he => sortDesc_pair_stable h he⟩
  have hp := (sortDesc_pairwise l).sublist h
  exact (List.pairwise_cons.mp hp).1 q (by simp)

/-- **C7**: in the finalized result each of the three lists
(`optimization_priority`, `function_totals`, `module_distribution`) is
sorted descending by sample count with stable tie-breaking: whenever entry
`a` appears before entry `b`, `b.samples ≤ a.samples`, and on equal counts
the corresponding tally pairs occur in the same order in the underlying
tally list — i.e. `a`'s key was inserted no later than `b`'s. -/
theorem c7_result_lists_sorted_stable (st : ParserState) :
    (∀ a b : PriorityEntry,
        List.Sublist [a, b] (formatResult st).optimization_priority →
          b.samples ≤ a.samples ∧
            (a.samples = b.samples →
              List.Sublist [(a.location, a.samples), (b.location, b.samples)]
                st.optimization_priority)) ∧
    (∀ a b : FunctionEntry,
        List.Sublist [a, b] (formatResult st).function_totals →
          b.samples ≤ a.samples ∧
            (a.samples = b.samples →
              List.Sublist [(a.function, a.samples), (b.function, b.samples)]
                st.function_totals)) ∧
    (∀ a b : ModuleEntry,
        List.Sublist [a, b] (formatResult st).module_distribution →
          b.samples ≤ a.samples ∧
            (a.samples = b.samples →
              List.Sublist [(a.module, a.samples), (b.module, b.samples)]
                st.module_samples)) := by
  refine ⟨?_, ?_, ?_⟩
  · intro a b h
    simp only [formatResult] at h
    rw [List.map_take] at h
    replace h := h.trans (List.take_sublist _ _)
    obtain ⟨l₀, hs, hmap⟩ := exists_of_sublist_map h
    rcases l₀ with _ | ⟨p, _ | ⟨q, _ | ⟨r, t⟩⟩⟩ <;> simp at hmap
    obtain ⟨ha, hb⟩ := hmap
    subst ha; subst hb
    have hpq := sublist_sortDesc_pairs hs
    refine ⟨hpq.1, fun he => ?_⟩
    have hsub := hpq.2 (by simpa using he)
    simpa using hsub
  · intro a b h
    simp only [formatResult] at h
    obtain ⟨l₀, hs, hmap⟩ := exists_of_sublist_map h
    rcases l₀ with _ | ⟨p, _ | ⟨q, _ | ⟨r, t⟩⟩⟩ <;> simp at hmap
    obtain ⟨ha, hb⟩ := hmap
    subst ha; subst hb
    have hpq := sublist_sortDesc_pairs hs
    refine ⟨hpq.1, fun he => ?_⟩
    have hsub := hpq.2 (by simpa using he)
    simpa using hsub
  · intro a b h
    simp only [formatResult] at h
    obtain ⟨l₀, hs, hmap⟩ := exists_of_sublist_map h
    rcases l₀ with _ | ⟨p, _ | ⟨q, _ | ⟨r, t⟩⟩⟩ <;> simp at hmap
    obtain ⟨ha, hb⟩ := hmap
    subst ha; subst hb
    have hpq := sublist_sortDesc_pairs hs
    refine ⟨hpq.1, fun he => ?_⟩
    have hsub := hpq.2 (by simpa using he)
    simpa using hsub

/-- Witness for C7 at a concrete state: the sublist hypothesis holds and
the conclusion follows by the theorem. -/
theorem c7_result_lists_sorted_stable_witness :
    List.Sublist
        [({ location := "x:1", samples := 0, percentage := "0.0%" } : PriorityEntry),
         { location := "y:2", samples := 0, percentage := "0.0%" }]
        (formatResult stTwoEntries).optimization_priority ∧
    ((0 : Int) ≤ 0 ∧ ((0 : Int) = 0 →
      List.Sublist [("x:1", (0 : Int)), ("y:2", (0 : Int))]
        stTwoEntries.optimization_priority)) :=
  ⟨by decide,
   (c7_result_lists_sorted_stable stTwoEntries).1
     { location := "x:1", samples := 0, percentage := "0.0%" }
     { location := "y:2", samples := 0, percentage := "0.0%" } (by decide)⟩

/-- **C8**: `optimization_priority` is truncated to
`min(20, number of distinct locations)` entries, while `function_totals`
and `module_distribution` keep one entry per distinct key, untruncated.
(The tally key lists are nodup, so their lengths are the distinct-key
counts.) -/
theorem c8_result_lists_lengths (lines : List String) :
    ((formatResult (parseLines lines)).optimization_priority.length =
        min 20 (parseLines lines).optimization_priority.length) ∧
    (((parseLines lines).optimization_priority.map Prod.fst).Nodup ∧
      ((parseLines lines).function_totals.map Prod.fst).Nodup ∧
      ((parseLines lines).module_samples.map Prod.fst).Nodup) ∧
    ((formatResult (parseLines lines)).function_totals.length =
        (parseLines lines).function_totals.length) ∧
    ((formatResult (parseLines lines)).module_distribution.length =
        (parseLines lines).module_samples.length) := by
  refine ⟨?_, parseLines_talliesNodup lines, ?_, ?_⟩ <;>
    simp [formatResult, sortDesc_length]

/-- **C9**: every percentage field of the finalized result is
`format_percentage` of its own `samples` against the grand total:
`"0.0%"` whenever `total_samples = 0`, else the exact ratio
`samples * 100 / total` rendered to one decimal place with a trailing
`%`.  No field is produced any other way, so no division by zero can
occur. -/
theorem c9_percentage_fields (st : ParserState) :
    (st.total_samples = 0 → ∀ s : Int, formatPercentage st.total_samples s = "0.0%") ∧
    (st.total_samples ≠ 0 → ∀ s : Int, formatPercentage st.total_samples s =
        renderTenths (pctTenths s st.total_samples) ++ "%") ∧
    (∀ e ∈ (formatResult st).optimization_priority,
        e.percentage = formatPercentage st.total_samples e.samples) ∧
    (∀ e ∈ (formatResult st).function_totals,
        e.percentage = formatPercentage st.total_samples e.samples) ∧
    (∀ e ∈ (formatResult st).module_distribution,
        e.percentage = formatPercentage st.total_samples e.samples) ∧
    (formatResult st).summary.overhead_percentage =
        formatPercentage st.total_samples st.overhead_samples ∧
    (formatResult st).statistics.code_percentage =
        formatPercentage st.total_samples (st.total_samples - st.overhead_samples) ∧
    (formatResult st).statistics.import_percentage =
        formatPercentage st.total_samples st.overhead_samples := by
  refine ⟨fun h s => by simp [formatPercentage, h], fun h s => by simp [formatPercentage, h],
    ?_, ?_, ?_, rfl, rfl, rfl⟩
  · intro e he
    simp only [formatResult, List.mem_map] at he
    obtain ⟨p, _, rfl⟩ := he
    rfl
  · intro e he
    simp only [formatResult, List.mem_map] at he
    obtain ⟨p, _, rfl⟩ := he
    rfl
  · intro e he
    simp only [formatResult, List.mem_map] at he
    obtain ⟨p, _, rfl⟩ := he
    rfl

/-- Witness for C9: at a state with zero total every field is `"0.0%"`,
and at a nonzero total the ratio is rendered. -/
theorem c9_percentage_fields_witness :
    (stTwoEntries.total_samples = 0 ∧
      formatPercentage stTwoEntries.total_samples 7 = "0.0%") ∧
    ((parseLines ["f (a.py:1) 5"]).total_samples ≠ 0 ∧
      formatPercentage (parseLines ["f (a.py:1) 5"]).total_samples 5 =
        renderTenths (pctTenths 5 (parseLines ["f (a.py:1) 5"]).total_samples) ++ "%") :=
  ⟨⟨rfl, (c9_percentage_fields stTwoEntries).1 rfl 7⟩,
   ⟨by decide, (c9_percentage_fields (parseLines ["f (a.py:1) 5"])).2.1 (by decide) 5⟩⟩

/-- **C10**: import-overhead classification is substring containment over
the whole frame text: if any of the five marker strings occurs anywhere
inside any frame — function name, path or location portion alike — the
stack is classified `"import"`. -/
theorem c10_import_marker_substring (st : ParserState) (items : List String)
    (item : String) (pat : String) (hitem : item ∈ items)
    (hpat : pat ∈ importPatterns) (hsub : containsSub pat.data item.data = true) :
    classifyStack st items = "import" := by
  have hmark : hasImportMarker items = true := by
    rw [hasImportMarker, List.any_eq_true]
    exact ⟨item, hitem, by rw [List.any_eq_true]; exact ⟨pat, hpat, hsub⟩⟩
  cases items with
  | nil => cases hitem
  | cons first rest => simp [classifyStack, hmark]

/-- Witness for C10: the marker `exec_module` occurs only inside the file
path of the frame's location — not as the function name — and the stack
is still classified `"import"`. -/
theorem c10_import_marker_substring_witness :
    ("work (/lib/exec_module/a.py:3)" : String) ∈ ["work (/lib/exec_module/a.py:3)"] ∧
    ("exec_module" : String) ∈ importPatterns ∧
    containsSub "exec_module".data "work (/lib/exec_module/a.py:3)".data = true ∧
    classifyStack initState ["work (/lib/exec_module/a.py:3)"] = "import" :=
  ⟨by decide, by decide, by decide,
   c10_import_marker_substring initState ["work (/lib/exec_module/a.py:3)"]
     "work (/lib/exec_module/a.py:3)" "exec_module"
     (by decide) (by decide) (by decide)⟩

/-- `_analyze_stack` never touches `total_samples` or
`main_module_name`. -/
theorem analyzeStack_total_main (st : ParserState) (s : String) (c : Int) :
    (analyzeStack st s c).total_samples = st.total_samples ∧
    (analyzeStack st s c).main_module_name = st.main_module_name := by
  simp only [analyzeStack]
  split_ifs with h1 h2 h3 h4
  · cases hga : getActiveFunction (splitFrames s) with
    | none => exact ⟨rfl, rfl⟩
    | some v => obtain ⟨f, m, ln⟩ := v; exact ⟨rfl, rfl⟩
  · exact ⟨rfl, rfl⟩
  · unfold processFunctions
    cases hgl : (stripLeadModule (splitFrames s)).getLast? with
    | none => exact ⟨rfl, rfl⟩
    | some last =>
      dsimp only
      cases hml : matchNameLineAux last.data with
      | none => exact ⟨rfl, rfl⟩
      | some v => obtain ⟨f, ln⟩ := v; exact ⟨rfl, rfl⟩
  · cases hga : getActiveFunction (splitFrames s) with
    | none => exact ⟨rfl, rfl⟩
    | some v => obtain ⟨f, m, ln⟩ := v; exact ⟨rfl, rfl⟩
  · exact ⟨rfl, rfl⟩

/-- Counterexample to **C5**: the line `"foo -5"` carries the NEGATIVE
trailing integer `-5`; the claim says such a line is skipped with no
counter change, but the code's `int()` accepts the sign and
`total_samples` becomes `-5`.  Conversely `"foo\t5"` — where the last
whitespace run is a tab — is skipped by `rsplit(' ', 1)` although a
last-whitespace-run split would count it. -/
theorem c5_counterexample :
    (parseLines ["foo -5"]).total_samples = -5 ∧
    (parseLines ["foo -5"]).total_samples ≠ 0 ∧
    parseLines ["foo\t5"] = initState := by decide

/-- **C5** amended: decoding splits on the last SPACE character (not any
whitespace run) and accepts any Python integer, sign included; a blank
line, a line with no space, or a line whose trailing token fails the
integer parse is silently skipped with no state change, and a decoded
line adds its (possibly negative) count to `total_samples`. -/
theorem c5_line_decoding (st : ParserState) (line : String) :
    (decodeLine line = none → processLine st line = st) ∧
    (∀ s c, decodeLine line = some (s, c) →
        (processLine st line).total_samples = st.total_samples + c) ∧
    (pyStrip line = "" → decodeLine line = none) ∧
    (rsplitSpace (pyStrip line) = none → decodeLine line = none) ∧
    (∀ s t, rsplitSpace (pyStrip line) = some (s, t) → pyInt? t = none →
        decodeLine line = none) ∧
    (∀ s t c, rsplitSpace (pyStrip line) = some (s, t) → pyInt? t = some c →
        decodeLine line = some (s, c)) := by
  refine ⟨?_, ?_, ?_, ?_, ?_, ?_⟩
  · intro h
    simp [processLine, h]
  · intro s c h
    simp only [processLine, h]
    set st1 : ParserState := { st with total_samples := st.total_samples + c } with hst1
    have h1 : st1.total_samples = st.total_samples + c := rfl
    split_ifs with hmain
    · rw [(analyzeStack_total_main (extractMainModuleName st1 s) s c).1,
        (extractMainModuleName_counters st1 s).1]
    · rw [(analyzeStack_total_main st1 s c).1]
  · intro h
    simp [decodeLine, h]
  · intro h
    simp only [decodeLine]
    split_ifs with hb
    · rfl
    · rw [h]
  · intro s t h1 h2
    simp only [decodeLine]
    split_ifs with hb
    · rfl
    · rw [h1]; dsimp only; rw [h2]; rfl
  · intro s t c h1 h2
    simp only [decodeLine]
    split_ifs with hb
    · rw [hb] at h1
      simp [rsplitSpace] at h1
    · rw [h1]; dsimp only; rw [h2]; rfl

/-- Witness for C5: the signed line decodes and is counted. -/
theorem c5_line_decoding_witness :
    decodeLine "foo -5" = some ("foo", -5) ∧
    (processLine initState "foo -5").total_samples = initState.total_samples + (-5) :=
  ⟨by decide, (c5_line_decoding initState "foo -5").2.1 "foo" (-5) (by decide)⟩

theorem hasImportMarker_iff (items : List String) :
    hasImportMarker items = true ↔
      ∃ item ∈ items, ∃ p ∈ importPatterns, containsSub p.data item.data = true := by
  simp [hasImportMarker, List.any_eq_true]

/-- Counterexample to **C3**: the empty stack — produced, e.g., by the
line `";; 5"`, whose frames all strip to nothing — is classified
`"unknown"`, not the claimed default `"other_module"`. -/
theorem c3_counterexample :
    splitFrames ";;" = [] ∧
    classifyStack initState [] = "unknown" ∧
    classifyStack initState [] ≠ "other_module" := by decide

/-- **C3** amended: for every NON-empty stack the rules apply in the
claimed first-match order — any frame containing an import marker wins;
else a root frame starting with `<module>` whose `(...\.py):` group
equals the current entry-module name gives `"main_module_code"`; in all
remaining cases `"other_module"`.  (The empty stack, excluded here, is
classified `"unknown"`, see the counterexample.) -/
theorem c3_classification_order (st : ParserState) (first : String) (rest : List String) :
    ((∃ item ∈ first :: rest, ∃ p ∈ importPatterns, containsSub p.data item.data = true) →
        classifyStack st (first :: rest) = "import") ∧
    ((¬ ∃ item ∈ first :: rest, ∃ p ∈ importPatterns, containsSub p.data item.data = true) →
      (∀ name, pyStartsWith first "<module>" = true → searchModulePy first = some name →
          ((some name = st.main_module_name →
              classifyStack st (first :: rest) = "main_module_code") ∧
           (some name ≠ st.main_module_name →
              classifyStack st (first :: rest) = "other_module"))) ∧
      ((pyStartsWith first "<module>" = false ∨ searchModulePy first = none) →
          classifyStack st (first :: rest) = "other_module")) := by
  constructor
  · intro hex
    have hmark : hasImportMarker (first :: rest) = true := (hasImportMarker_iff _).mpr hex
    simp [classifyStack, hmark]
  · intro hnex
    have hmark : hasImportMarker (first :: rest) = false := by
      cases h : hasImportMarker (first :: rest) with
      | false => rfl
      | true => exact absurd ((hasImportMarker_iff _).mp h) hnex
    constructor
    · intro name hstart hsearch
      have hcl : classifyStack st (first :: rest) =
          if (some name : Option String) = st.main_module_name then "main_module_code"
          else "other_module" := by
        simp [classifyStack, hmark, hstart, hsearch]
      constructor
      · intro heq
        rw [hcl, if_pos heq]
      · intro hne
        rw [hcl, if_neg hne]
    · intro hcase
      rcases hcase with hf | hnone
      · simp [classifyStack, hmark, hf]
      · by_cases hstart : pyStartsWith first "<module>" = true
        · simp [classifyStack, hmark, hstart, hnone]
        · simp only [Bool.not_eq_true] at hstart
          simp [classifyStack, hmark, hstart]

/-- Witness for C3: an import marker anywhere in any frame classifies the
stack as `"import"`. -/
theorem c3_classification_order_witness :
    (∃ item ∈ ["a (x.py:1)", "b (_load_unlocked.py:2)"], ∃ p ∈ importPatterns,
        containsSub p.data item.data = true) ∧
    classifyStack initState ["a (x.py:1)", "b (_load_unlocked.py:2)"] = "import" :=
  ⟨by decide,
   (c3_classification_order initState "a (x.py:1)" ["b (_load_unlocked.py:2)"]).1 (by decide)⟩

/-- Counterexample to **C4**: in the stack
`"foo (a.py:1);<module> (b.py:2)"` the ROOT frame names the concrete
non-synthetic file `a.py`, yet the entry-module name is set to `"b.py"`,
taken from the non-root second frame — the detector scans ALL frames for
the first one starting with `<module>`, not the root frame. -/
theorem c4_counterexample :
    (parseLines ["foo (a.py:1);<module> (b.py:2) 5"]).main_module_name = some "b.py" ∧
    (parseLines ["foo (a.py:1);<module> (b.py:2) 5"]).main_module_name ≠ some "a.py" ∧
    (parseLines ["foo (a.py:1);<module> (b.py:2) 5"]).main_module_name ≠ none := by
  decide

/-- **C4** amended: the entry-module name is first-write-wins — once set
it is never overwritten for the rest of the pass — but it is set from the
first frame AT ANY POSITION that starts with `<module>` and whose
location matches `\(([^)]+\.py):` with a group not starting with `<`
(`moduleNameCandidate`), scanned per line until a write happens; and
while it is unset, no stack is ever classified `"main_module_code"`. -/
theorem c4_entry_module_name (st : ParserState) (line : String) (lines : List String) :
    (∀ m, st.main_module_name = some m →
        (processLine st line).main_module_name = some m) ∧
    (∀ m, st.main_module_name = some m →
        (lines.foldl processLine st).main_module_name = some m) ∧
    (st.main_module_name = none → ∀ s c, decodeLine line = some (s, c) →
        (processLine st line).main_module_name =
          (splitFrames s).findSome? moduleNameCandidate) ∧
    (∀ items, st.main_module_name = none → classifyStack st items ≠ "main_module_code") := by
  have hstep : ∀ (st' : ParserState) (l : String) (m : String),
      st'.main_module_name = some m → (processLine st' l).main_module_name = some m := by
    intro st' l m hm
    cases hdec : decodeLine l with
    | none => simp [processLine, hdec, hm]
    | some v =>
      obtain ⟨s, c⟩ := v
      simp only [processLine, hdec]
      rw [(analyzeStack_total_main _ s c).2]
      simp [hm]
  refine ⟨hstep st line, ?_, ?_, ?_⟩
  · intro m hm
    induction lines generalizing st with
    | nil => exact hm
    | cons l ls ih => exact ih _ (hstep st l m hm)
  · intro hnone s c hdec
    simp only [processLine, hdec]
    rw [(analyzeStack_total_main _ s c).2]
    simp only [hnone, Option.isNone_none, if_true]
    unfold extractMainModuleName
    cases hfind : (splitFrames s).findSome? moduleNameCandidate with
    | none => simpa using hnone
    | some name => simp
  · intro items hnone
    cases items with
    | nil => simp [classifyStack]
    | cons first rest =>
      simp only [classifyStack]
      split_ifs with h1 h2
      · decide
      · cases hsearch : searchModulePy first with
        | none => dsimp only; decide
        | some name => simp [hnone]
      · decide

/-- Witness for C4: persistence at a set state and the setter at an unset
state. -/
theorem c4_entry_module_name_witness :
    ((parseLines ["<module> (test.py:8);f (test.py:4) 1"]).main_module_name =
        some "test.py" ∧
      (processLine (parseLines ["<module> (test.py:8);f (test.py:4) 1"])
          "<module> (zzz.py:1);g (zzz.py:2) 7").main_module_name = some "test.py") ∧
    (initState.main_module_name = none ∧ decodeLine "foo (a.py:1);<module> (b.py:2) 5" =
        some ("foo (a.py:1);<module> (b.py:2)", 5) ∧
      (processLine initState "foo (a.py:1);<module> (b.py:2) 5").main_module_name =
        (splitFrames "foo (a.py:1);<module> (b.py:2)").findSome? moduleNameCandidate) :=
  ⟨⟨by decide,
    (c4_entry_module_name (parseLines ["<module> (test.py:8);f (test.py:4) 1"])
        "<module> (zzz.py:1);g (zzz.py:2) 7" []).1 "test.py" (by decide)⟩,
   ⟨rfl, by decide,
    (c4_entry_module_name initState "foo (a.py:1);<module> (b.py:2) 5" []).2.2.1 rfl
      "foo (a.py:1);<module> (b.py:2)" 5 (by decide)⟩⟩

theorem analyzeStack_balance (st2 : ParserState) (s : String) (c : Int) :
    (analyzeStack st2 s c).overhead_samples + sumCounts (analyzeStack st2 s c).module_samples =
      st2.overhead_samples + sumCounts st2.module_samples + stackBalanceDelta st2 s c := by
  simp only [analyzeStack, stackBalanceDelta]
  by_cases h1 : classifyStack st2 (splitFrames s) = "import"
  · cases hga : getActiveFunction (splitFrames s) with
    | none => simp [h1, hga] <;> omega
    | some v =>
      obtain ⟨f, m, ln⟩ := v
      simp [h1, hga, addTallies, sumCounts_bump] <;> omega
  · by_cases h2 : classifyStack st2 (splitFrames s) = "main_module_code"
    · by_cases h3 : stripLeadModule (splitFrames s) = []
      · simp [h1, h2, h3] <;> omega
      · cases hgl : (stripLeadModule (splitFrames s)).getLast? with
        | none => simp [h1, h2, h3, processFunctions, hgl] <;> omega
        | some last =>
          cases hml : matchNameLineAux last.data with
          | none => simp [h1, h2, h3, processFunctions, hgl, hml] <;> omega
          | some v =>
            obtain ⟨f, ln⟩ := v
            simp [h1, h2, h3, processFunctions, hgl, hml, addTallies, sumCounts_bump] <;> omega
    · by_cases h4 : classifyStack st2 (splitFrames s) = "other_module"
      · cases hga : getActiveFunction (splitFrames s) with
        | none => simp [h1, h2, h4, hga] <;> omega
        | some v =>
          obtain ⟨f, m, ln⟩ := v
          simp [h1, h2, h4, hga, addTallies, sumCounts_bump] <;> omega
      · simp [h1, h2, h4] <;> omega

theorem balance_processLine (st : ParserState) (line : String) :
    balance (processLine st line) = balance st + lineFlow st line := by
  cases hdec : decodeLine line with
  | none => simp [processLine, lineFlow, hdec]
  | some v =>
    obtain ⟨s, c⟩ := v
    simp only [processLine, lineFlow, hdec]
    have hkey : ∀ st2 : ParserState,
        st2.overhead_samples = st.overhead_samples →
        st2.module_samples = st.module_samples →
        st2.total_samples = st.total_samples + c →
        balance (analyzeStack st2 s c) = balance st + (stackBalanceDelta st2 s c - c) := by
      intro st2 ho hm ht
      have hb := analyzeStack_balance st2 s c
      have htot := (analyzeStack_total_main st2 s c).1
      rw [ho, hm] at hb
      unfold balance
      rw [htot, ht, hb]
      omega
    apply hkey
    · split_ifs with h
      · exact (extractMainModuleName_counters _ s).2.1
      · rfl
    · split_ifs with h
      · exact (extractMainModuleName_counters _ s).2.2.2.2
      · rfl
    · split_ifs with h
      · exact (extractMainModuleName_counters _ s).1
      · rfl

theorem parseFlow_aux :
    ∀ (lines : List String) (st : ParserState) (k : Int),
      (lines.foldl (fun p line => (processLine p.1 line, p.2 + lineFlow p.1 line)) (st, k)).1 =
        lines.foldl processLine st ∧
      balance (lines.foldl processLine st) + k =
        balance st +
          (lines.foldl (fun p line => (processLine p.1 line, p.2 + lineFlow p.1 line)) (st, k)).2
  | [], st, k => ⟨rfl, rfl⟩
  | l :: ls, st, k => by
    have ih := parseFlow_aux ls (processLine st l) (k + lineFlow st l)
    have hb := balance_processLine st l
    constructor
    · simpa using ih.1
    · have h2 := ih.2
      simp only [List.foldl_cons]
      omega

/-- Counterexample to **C1**: for the single line
`"_find_and_load (x.py:1) 5"` (classified import-overhead WITH a
locatable active frame) the 5 samples land in `overhead_samples` AND in
the module tally, so `total_samples = 5` while
`overhead_samples + Σ module_samples = 10`. -/
theorem c1_counterexample :
    (parseLines ["_find_and_load (x.py:1) 5"]).total_samples = 5 ∧
    (parseLines ["_find_and_load (x.py:1) 5"]).overhead_samples +
        sumCounts (parseLines ["_find_and_load (x.py:1) 5"]).module_samples = 10 ∧
    ¬((parseLines ["_find_and_load (x.py:1) 5"]).total_samples =
        (parseLines ["_find_and_load (x.py:1) 5"]).overhead_samples +
          sumCounts (parseLines ["_find_and_load (x.py:1) 5"]).module_samples) := by
  decide

/-- **C1** amended: after any sequence of absorbed lines,
`overhead_samples + Σ module_samples = total_samples + parseFlow`, where
`parseFlow` adds `+c` for every import-classified line with a locatable
active frame (double attribution) and `−c` for every unattributed line,
and `0` otherwise.  The claimed equality
`total = overhead + Σ modules` therefore holds exactly when the
accumulated flow is zero (in particular when no line is double-attributed
or unattributed); since the statement quantifies over all line lists it
covers every intermediate point of a pass. -/
theorem c1_sample_conservation (lines : List String) :
    (parseLines lines).overhead_samples + sumCounts (parseLines lines).module_samples =
      (parseLines lines).total_samples + parseFlow lines := by
  have h := (parseFlow_aux lines initState 0).2
  unfold balance at h
  have hinit : initState.overhead_samples + sumCounts initState.module_samples -
      initState.total_samples = 0 := by decide
  unfold parseFlow parseLines
  omega

theorem foldl_overwrite {γ β : Type} (p : γ → Bool) (f : γ → β) :
    ∀ (l : List γ) (acc : Option β),
      l.foldl (fun c n => if p n then some (f n) else c) acc =
        (match (l.filter p).getLast? with
         | some n => some (f n)
         | none => acc)
  | [], _ => rfl
  | n :: t, acc => by
    rw [List.foldl_cons, foldl_overwrite p f t, List.filter_cons]
    by_cases hp : p n = true
    · simp only [hp, if_true, List.getLast?_cons]
      cases hft : (t.filter p).getLast? with
      | none => simp [hft]
      | some m => simp [hft]
    · simp only [hp, if_false]
      cases hft : (t.filter p).getLast? with
      | none => simp [hft, hp]
      | some m => simp [hft, hp]

/-- **C6** amended: the extracted span is that of the matching definition
encountered LAST in the BREADTH-FIRST `ast.walk` order (not in a
top-to-bottom document-order walk): the overwrite loop keeps the last
match of `walkBFS`.  The span itself starts at the first leading
decorator line when decorators are present, otherwise at the definition's
first line, and ends at its last body line inclusive (`spanText`). -/
theorem c6_extraction_last_bfs_match (roots : List PyNode) (funcName : String)
    (lines : List String) :
    lastMatchCode roots funcName lines =
      ((walkBFS roots).filter (isTargetDef funcName)).getLast?.map (spanOf lines) := by
  have hbody : (fun (code : Option String) (n : PyNode) =>
      (match n with
        | PyNode.funcDef _ name decoLines lineno endLineno _ =>
          if name = funcName then some (spanText lines decoLines lineno endLineno) else code
        | PyNode.other _ => code)) =
      (fun (code : Option String) (n : PyNode) =>
        if isTargetDef funcName n then some (spanOf lines n) else code) := by
    funext code n
    cases n with
    | funcDef a name d l e ch =>
      by_cases h : name = funcName <;> simp [isTargetDef, spanOf, h]
    | other ch => simp [isTargetDef]
  unfold lastMatchCode
  rw [hbody, foldl_overwrite]
  cases ((walkBFS roots).filter (isTargetDef funcName)).getLast? <;> simp

/-- Counterexample to **C6**: `ast.walk` is breadth-first, so the NESTED
`target` (line 2) is visited after the top-level `target` (line 4) and
wins, while a top-to-bottom structural walk would make the line-4
definition the last match.  The two spans differ. -/
theorem c6_counterexample :
    lastMatchCode [cTree] "target" cLines = some "    def target():\n        return 1" ∧
    specLastMatchCode [cTree] "target" cLines = some "def target():\n    return 2" ∧
    lastMatchCode [cTree] "target" cLines ≠ specLastMatchCode [cTree] "target" cLines := by
  have hw : walkBFS [cTree] =
      [cTree, .funcDef false "outer" [] 1 3 [.funcDef false "target" [] 2 3 []],
       .funcDef false "target" [] 4 5 [], .funcDef false "target" [] 2 3 []] := by
    simp [walkBFS, cTree, PyNode.children]
  have hp : specWalkTopToBottom [cTree] =
      [cTree, .funcDef false "outer" [] 1 3 [.funcDef false "target" [] 2 3 []],
       .funcDef false "target" [] 2 3 [], .funcDef false "target" [] 4 5 []] := by
    simp [specWalkTopToBottom, cTree, PyNode.children]
  have h1 : lastMatchCode [cTree] "target" cLines =
      some "    def target():\n        return 1" := by
    unfold lastMatchCode
    rw [hw]
    decide
  have h2 : specLastMatchCode [cTree] "target" cLines =
      some "def target():\n    return 2" := by
    unfold specLastMatchCode
    rw [hp]
    decide
  exact ⟨h1, h2, by rw [h1, h2]; decide⟩

/-- Counterexample to **C2**: when the top module's file cannot be read,
`parse` does NOT complete — `Path.read_text` raises out of
`_extract_target_func` (only `IndexError` is caught).  And in the
empty-lists case `parse` warns and returns `None`, not a result object
lacking `source_code`. -/
theorem c2_counterexample :
    parse (fun _ => none) ["f (a.py:1) 5"] = Except.error PyErr.fileNotFound ∧
    parse (fun _ => none) [] = Except.ok none := ⟨by decide, by decide⟩

/-- **C2** amended: extraction failure is non-fatal only in the
empty-ranked-lists and no-matching-definition cases, where `parse` prints
a warning and returns `None` (no result object at all); a `None` module
key raises `TypeError` and an unreadable module file raises the read
error — both escape `parse`.  On success the result carries the span in
`source_code`. -/
theorem c2_extraction_failure_modes (fs : String → Option PyFile) (lines : List String) :
    ((formatResult (parseLines lines)).module_distribution = [] →
        parse fs lines = Except.ok none) ∧
    (∀ e rest, (formatResult (parseLines lines)).module_distribution = e :: rest →
        e.module = none → parse fs lines = Except.error PyErr.typeError) ∧
    (∀ e rest p, (formatResult (parseLines lines)).module_distribution = e :: rest →
        e.module = some p → (formatResult (parseLines lines)).function_totals = [] →
        parse fs lines = Except.ok none) ∧
    (∀ e rest p fe frest, (formatResult (parseLines lines)).module_distribution = e :: rest →
        e.module = some p → (formatResult (parseLines lines)).function_totals = fe :: frest →
        fs p = none → parse fs lines = Except.error PyErr.fileNotFound) ∧
    (∀ e rest p fe frest pf,
        (formatResult (parseLines lines)).module_distribution = e :: rest →
        e.module = some p → (formatResult (parseLines lines)).function_totals = fe :: frest →
        fs p = some pf → lastMatchCode [pf.tree] fe.function pf.lines = none →
        parse fs lines = Except.ok none) ∧
    (∀ e rest p fe frest pf code,
        (formatResult (parseLines lines)).module_distribution = e :: rest →
        e.module = some p → (formatResult (parseLines lines)).function_totals = fe :: frest →
        fs p = some pf → lastMatchCode [pf.tree] fe.function pf.lines = some code →
        parse fs lines =
          Except.ok (some { formatResult (parseLines lines) with source_code := some code })) := by
  refine ⟨?_, ?_, ?_, ?_, ?_, ?_⟩
  · intro h
    simp only [parse]
    unfold extractTargetFunc
    rw [h]
  · intro e rest h1 h2
    simp only [parse]
    unfold extractTargetFunc
    rw [h1]; dsimp only; rw [h2]
  · intro e rest p h1 h2 h3
    simp only [parse]
    unfold extractTargetFunc
    rw [h1]; dsimp only; rw [h2]; dsimp only; rw [h3]
  · intro e rest p fe frest h1 h2 h3 h4
    simp only [parse]
    unfold extractTargetFunc
    rw [h1]; dsimp only; rw [h2]; dsimp only; rw [h3]; dsimp only; rw [h4]
  · intro e rest p fe frest pf h1 h2 h3 h4 h5
    simp only [parse]
    unfold extractTargetFunc
    rw [h1]; dsimp only; rw [h2]; dsimp only; rw [h3]; dsimp only; rw [h4]; dsimp only; rw [h5]
  · intro e rest p fe frest pf code h1 h2 h3 h4 h5
    simp only [parse]
    unfold extractTargetFunc
    rw [h1]; dsimp only; rw [h2]; dsimp only; rw [h3]; dsimp only; rw [h4]; dsimp only; rw [h5]

/-- Witness for C2: on empty input the ranked lists are empty and `parse`
returns `None` non-fatally. -/
theorem c2_extraction_failure_modes_witness :
    (formatResult (parseLines [])).module_distribution = [] ∧
    parse (fun _ => none) [] = Except.ok none :=
  ⟨by decide, (c2_extraction_failure_modes (fun _ => none) []).1 (by decide)⟩

